import Mathlib

/-!
Verification of the segmentation CSV processor (internal/processor/worker.go)
and the MySQL upsert repository (internal/repository/mysql/segmentation.go).

The Go code is shallowly embedded: the producer loop, the per-row validation,
the worker loop and the repository upsert become executable Lean functions over
explicit state; machine integers become `Nat` with explicit `2 ^ 64` bounds;
the cancellation signal (`ctx.Done()`) becomes a boolean function of the
observation index; the external collaborators (encoding/json validity check,
the Store / gorm database operations) become function parameters or explicit
fault-injection records.
-/

namespace Seg

/-! ## Primitive string helpers (strings.TrimSpace, strconv.ParseUint) -/

/-- Whitespace characters trimmed by Go's strings.TrimSpace (ASCII part). -/
def isSpaceGo (c : Char) : Bool :=
  c.toNat == 32 || c.toNat == 9 || c.toNat == 10 ||
  c.toNat == 11 || c.toNat == 12 || c.toNat == 13

/-- Model of strings.TrimSpace: drop leading and trailing whitespace. -/
def trimSpace (s : String) : String :=
  String.mk (((s.toList.dropWhile isSpaceGo).reverse.dropWhile isSpaceGo).reverse)

/-- Numeric value of a list of decimal digit characters. -/
def digitsVal (cs : List Char) : Nat :=
  cs.foldl (fun a c => a * 10 + (c.toNat - 48)) 0

/-- Model of strconv.ParseUint(s, 10, 64): a nonempty all-digit string whose
value fits in 64 bits; no sign, no underscores (base 10). -/
def parseUint64 (s : String) : Option Nat :=
  let cs := s.toList
  if cs.isEmpty then none
  else if cs.all Char.isDigit then
    let v := digitsVal cs
    if v < 2 ^ 64 then some v else none
  else none

/-! ## Data model -/

/-- processor.record (worker.go lines 24-29); `data` holds the payload bytes. -/
structure record where
  userID : Nat
  segType : String
  name : String
  data : String
deriving DecidableEq, Repr

/-- repository.UpsertResult (internal/repository/segmentation.go). -/
inductive UpsertResult where
  | UpsertInserted
  | UpsertUpdated
  | UpsertNoOp
deriving DecidableEq, Repr

/-- One result of csv.Reader.Read: a row of fields, or a row-level error.
End of the list models io.EOF on every further read. -/
inductive ReadResult where
  | row (fields : List String)
  | err (e : String)
deriving DecidableEq, Repr

/-- The log lines the producer emits (worker.go lines 179, 191, 199, 206, 213). -/
inductive LogLine where
  | csvReadError (rowNum : Nat) (e : String)
  | invalidRowSize (rowNum size : Nat)
  | invalidUserId (rowNum : Nat) (value : String)
  | invalidJson (rowNum : Nat)
  | producerCancelled
deriving DecidableEq, Repr

/-! ## Row validation (worker.go lines 197-224) -/

/-- Rejection reasons of the row validator, in source order. -/
inductive Reject where
  | wrongArity (size : Nat)
  | badSubjectId (raw : String)
  | badPayload
deriving DecidableEq, Repr

/-- The validation performed inline by the producer (worker.go lines 197-224):
arity first, then ParseUint on the trimmed field 0, then json.Valid on the
trimmed field 3; on success the record is built from the trimmed fields.
`jsonValid` abstracts encoding/json's json.Valid. -/
def validateRow (jsonValid : String → Bool) (fields : List String) :
    Except Reject record :=
  if fields.length < 4 then
    .error (.wrongArity fields.length)
  else
    match parseUint64 (trimSpace (fields.getD 0 "")) with
    | none => .error (.badSubjectId (fields.getD 0 ""))
    | some userID =>
      let raw := trimSpace (fields.getD 3 "")
      if !jsonValid raw then
        .error .badPayload
      else
        .ok { userID := userID
              segType := trimSpace (fields.getD 1 "")
              name := trimSpace (fields.getD 2 "")
              data := raw }

/-! ## Producer loop state (worker.go lines 50-61, 174-225) -/

/-- Producer-side state: the counters totalRead / totalInvalid / totalEnqueued,
the Go rowNum variable, the records sent to the channel (in send order), and
the producer's log output. -/
structure PState where
  read : Nat
  invalid : Nat
  enqueued : Nat
  rowNum : Nat
  recs : List record
  logs : List LogLine
deriving DecidableEq, Repr

/-- Initial producer state: counters zero, rowNum = 1 (header already read). -/
def PState.init : PState :=
  { read := 0, invalid := 0, enqueued := 0, rowNum := 1, recs := [], logs := [] }

/-- The producer body for one successfully read row (worker.go lines 195-224):
totalRead++ then either one invalid branch (counter + log) or totalEnqueued++
and a channel send. The state's rowNum has already been incremented. -/
def rowStep (jsonValid : String → Bool) (st : PState) (fields : List String) :
    PState :=
  let st := { st with read := st.read + 1 }
  match validateRow jsonValid fields with
  | .error (.wrongArity size) =>
      { st with invalid := st.invalid + 1
                logs := st.logs ++ [.invalidRowSize st.rowNum size] }
  | .error (.badSubjectId v) =>
      { st with invalid := st.invalid + 1
                logs := st.logs ++ [.invalidUserId st.rowNum v] }
  | .error .badPayload =>
      { st with invalid := st.invalid + 1
                logs := st.logs ++ [.invalidJson st.rowNum] }
  | .ok r =>
      { st with enqueued := st.enqueued + 1
                recs := st.recs ++ [r] }

/-- The producer loop (worker.go lines 176-225). `sig k` is the value of the
cancellation signal at the k-th top-of-loop select; an observed cancellation
logs producer_context_cancelled and jumps to finish. A read error other than
EOF is logged and skipped; end of the input list is the io.EOF break. -/
def producerGo (sig : Nat → Bool) (jsonValid : String → Bool) :
    Nat → PState → List ReadResult → PState
  | k, st, [] =>
      if sig k then { st with logs := st.logs ++ [.producerCancelled] } else st
  | k, st, x :: xs =>
      if sig k then { st with logs := st.logs ++ [.producerCancelled] }
      else
        match x with
        | .err e =>
            producerGo sig jsonValid (k + 1)
              { st with rowNum := st.rowNum + 1
                        logs := st.logs ++ [.csvReadError (st.rowNum + 1) e] } xs
        | .row fields =>
            producerGo sig jsonValid (k + 1)
              (rowStep jsonValid { st with rowNum := st.rowNum + 1 } fields) xs

/-- The whole producer loop from its initial state. -/
def producerRun (sig : Nat → Bool) (jsonValid : String → Bool)
    (inputs : List ReadResult) : PState :=
  producerGo sig jsonValid 0 PState.init inputs

/-! ## Worker loop (worker.go lines 104-169)

A worker repeatedly pulls a record from the channel (`for r := range ch`),
then checks the cancellation signal; if the signal is observed the worker
returns at once, dropping the record it just pulled. Otherwise it calls the
store (svc.Create) and increments exactly one counter. The store collaborator
is a function giving, per record, the UpsertResult and the error of the call;
`calls` records the records actually handed to the store. -/

/-- Worker-side counters (totalProcessed / totalUpdated / totalDuplicates /
totalFailed) and the records actually passed to the store. -/
structure WState where
  inserted : Nat
  updated : Nat
  noop : Nat
  failed : Nat
  calls : List record
deriving DecidableEq, Repr

/-- Zero worker state. -/
def WState.init : WState :=
  { inserted := 0, updated := 0, noop := 0, failed := 0, calls := [] }

/-- The worker body for one record (worker.go lines 116-166): a store call,
then failed++ on a non-nil error (the result is ignored), else one counter
per outcome. -/
def processRecord (store : record → UpsertResult × Option String)
    (st : WState) (r : record) : WState :=
  let st := { st with calls := st.calls ++ [r] }
  match store r with
  | (_, some _) => { st with failed := st.failed + 1 }
  | (.UpsertInserted, none) => { st with inserted := st.inserted + 1 }
  | (.UpsertUpdated, none) => { st with updated := st.updated + 1 }
  | (.UpsertNoOp, none) => { st with noop := st.noop + 1 }

/-- One worker's loop (worker.go lines 109-167): pull a record, observe the
signal (`sig k` at the k-th observation), return at once when cancelled
(dropping the pulled record), else process it. The list is the sequence of
records this worker receives from the channel; its end is the closed and
drained channel. -/
def workerGo (store : record → UpsertResult × Option String)
    (sig : Nat → Bool) : Nat → WState → List record → WState
  | _, st, [] => st
  | k, st, r :: rs =>
      if sig k then st
      else workerGo store sig (k + 1) (processRecord store st r) rs

/-- One worker's loop from the zero state. -/
def workerRun (store : record → UpsertResult × Option String)
    (sig : Nat → Bool) (recs : List record) : WState :=
  workerGo store sig 0 WState.init recs

/-- Pointwise sum of worker states (counters add, call lists concatenate). -/
def addW (a b : WState) : WState :=
  { inserted := a.inserted + b.inserted
    updated := a.updated + b.updated
    noop := a.noop + b.noop
    failed := a.failed + b.failed
    calls := a.calls ++ b.calls }

/-- A schedule resolves the nondeterminism of the channel: per worker, its
cancellation-observation signal and the records it receives. Validity (the
received lists partition the enqueued records) is a hypothesis of the
theorems that need it. -/
def workerPool (store : record → UpsertResult × Option String)
    (sched : List ((Nat → Bool) × List record)) : WState :=
  sched.foldl (fun acc w => addW acc (workerRun store w.1 w.2)) WState.init

/-- A worker cancellation signal that becomes set after `c` observations. -/
def cancelSig (c : Nat) : Nat → Bool :=
  fun k => decide (c ≤ k)

/-! ## Run entry point (worker.go lines 31-247) -/

/-- Worker count (worker.go line 47): runtime.NumCPU(), nothing else. -/
def workersUsed (numCPU : Nat) : Nat :=
  numCPU

/-- Channel capacity (worker.go line 48): workers * 4. -/
def chanCapacity (numCPU : Nat) : Nat :=
  workersUsed numCPU * 4

/-- Modelled from the spec: the spec's worker-count rule, "N defaulting to
the host's available parallelism (overridable)" — a caller override, when
given, replaces the NumCPU default. Compared against `workersUsed`, which is
what worker.go line 47 computes. -/
def specWorkersUsed (numCPU : Nat) (callerOverride : Option Nat) : Nat :=
  callerOverride.getD numCPU

/-- The environment Run sees: the result of os.Open on DATAFILEPATH (some e
when opening fails) and the stream of csv reads of the opened file. -/
structure RunInput where
  openErr : Option String
  stream : List ReadResult
deriving DecidableEq, Repr

/-- The header read (worker.go lines 43-45): the first csv read; an empty
stream is io.EOF, which is also a header error. -/
def headerRead : List ReadResult → Except String (List ReadResult)
  | [] => .error "EOF"
  | .err e :: _ => .error e
  | .row _ :: rest => .ok rest

/-- The processor_finished summary line (worker.go lines 234-244). -/
structure Summary where
  read : Nat
  enqueued : Nat
  inserted : Nat
  updated : Nat
  duplicates : Nat
  failed : Nat
  invalid : Nat
deriving DecidableEq, Repr

/-- Run (worker.go lines 31-247): open the file, read the header — each
failure is returned to the caller — then run the producer and the workers and
return the summary; no later failure (cancellation, read errors, invalid
rows, store errors) changes the nil return. -/
def Run (inp : RunInput) (sig : Nat → Bool) (jsonValid : String → Bool)
    (store : record → UpsertResult × Option String)
    (sched : List ((Nat → Bool) × List record)) : Except String Summary :=
  match inp.openErr with
  | some e => .error e
  | none =>
    match headerRead inp.stream with
    | .error e => .error e
    | .ok rows =>
      let p := producerRun sig jsonValid rows
      let w := workerPool store sched
      .ok { read := p.read, enqueued := p.enqueued, inserted := w.inserted,
            updated := w.updated, duplicates := w.noop, failed := w.failed,
            invalid := p.invalid }

/-! ## MySQL repository upsert (internal/repository/mysql/segmentation.go) -/

/-- models.Segmentation (internal/models/segmentation.go): an auto-increment
primary key ID, the unique triple (UserID, SegmentationType,
SegmentationName), the JSON Data, and unix-second timestamps. -/
structure Segmentation where
  ID : Nat
  UserID : Nat
  SegmentationType : String
  SegmentationName : String
  Data : String
  CreatedAt : Int
  UpdatedAt : Int
deriving DecidableEq, Repr

/-- The table: rows in insertion order, plus the next auto-increment ID. -/
structure Db where
  rows : List Segmentation
  nextId : Nat
deriving DecidableEq, Repr

/-- The WHERE clause of the existence query (segmentation.go lines 43-46):
row matches the triple (user_id, segmentation_type, segmentation_name). -/
def sameKey (s r : Segmentation) : Bool :=
  r.UserID == s.UserID && r.SegmentationType == s.SegmentationType &&
    r.SegmentationName == s.SegmentationName

/-- db.First on the triple: the first stored row carrying s's triple, or
none for gorm.ErrRecordNotFound. -/
def findFirst (db : Db) (s : Segmentation) : Option Segmentation :=
  db.rows.find? (sameKey s)

/-- Fault injection for the three gorm calls of Upsert: an existence-query
error other than ErrRecordNotFound, a Create error, an Updates error. -/
structure DbFaults where
  findErr : Option String
  createErr : Option String
  updateErr : Option String
deriving DecidableEq, Repr

/-- No transport or storage failure. -/
def noFaults : DbFaults :=
  { findErr := none, createErr := none, updateErr := none }

/-- segmentationRepository.Upsert (segmentation.go lines 36-83). Returns the
UpsertResult, the error, the database after the call, and the final value of
the passed record (gorm mutates it: Create fills ID and the timestamps; the
update path overwrites s.ID with the existing row's ID before Updates).
`now` is time.Now().Unix(). -/
def Upsert (faults : DbFaults) (now : Int) (db : Db) (s : Segmentation) :
    UpsertResult × Option String × Db × Segmentation :=
  match faults.findErr with
  | some e => (.UpsertNoOp, some e, db, s)
  | none =>
    match findFirst db s with
    | none =>
      match faults.createErr with
      | some e => (.UpsertNoOp, some e, db, s)
      | none =>
        let ins := { s with ID := db.nextId, CreatedAt := now, UpdatedAt := now }
        (.UpsertInserted, none, { rows := db.rows ++ [ins], nextId := db.nextId + 1 }, ins)
    | some existing =>
      let s := { s with ID := existing.ID }
      match faults.updateErr with
      | some e => (.UpsertNoOp, some e, db, s)
      | none =>
        let upd := fun r =>
          if r.ID == s.ID then { r with Data := s.Data, UpdatedAt := now } else r
        (.UpsertUpdated, none, { db with rows := db.rows.map upd }, s)

/-! ## Event traces of the two loops, for the cancellation-observation claims

The traces record, in program order, the observation points of the
cancellation signal (with the value sampled), the blocking operations
(source read, channel send, channel pull) and the processing of a record.
They mirror producerGo / workerGo on the same inputs. -/

/-- Producer events: a select on ctx.Done() (with the sampled value), a
csv read, a channel send. -/
inductive PEvt where
  | observe (cancelled : Bool)
  | readSrc
  | send
deriving DecidableEq, Repr

/-- Worker events: a channel pull, a select on ctx.Done(), a store call. -/
inductive WEvt where
  | pull
  | observe (cancelled : Bool)
  | process
deriving DecidableEq, Repr

/-- The producer loop's event trace (worker.go lines 176-225): each iteration
is one observation, then — when not cancelled — the csv read; a valid row is
followed by the channel send. The final iteration reads io.EOF. -/
def pTrace (sig : Nat → Bool) (jsonValid : String → Bool) :
    Nat → List ReadResult → List PEvt
  | k, [] =>
      if sig k then [.observe true] else [.observe false, .readSrc]
  | k, x :: xs =>
      if sig k then [.observe true]
      else
        .observe false :: .readSrc ::
          (match x with
           | .err _ => pTrace sig jsonValid (k + 1) xs
           | .row fields =>
               match validateRow jsonValid fields with
               | .error _ => pTrace sig jsonValid (k + 1) xs
               | .ok _ => .send :: pTrace sig jsonValid (k + 1) xs)

/-- One worker's event trace (worker.go lines 109-167): each iteration pulls
a record, then observes the signal; when cancelled the worker returns at
once, else it processes the record and pulls again. -/
def wTrace (sig : Nat → Bool) : Nat → List record → List WEvt
  | _, [] => []
  | k, _ :: rs =>
      if sig k then [.pull, .observe true]
      else .pull :: .observe false :: .process :: wTrace sig (k + 1) rs

/-! ## Producer counter invariants -/

/-- One successfully read row preserves read = invalid + enqueued and
enqueued = number of sent records: it adds 1 to read and 1 to exactly one of
invalid or enqueued (with the record sent in the latter case). -/
theorem rowStep_inv (jsonValid : String → Bool) (st : PState) (fields : List String)
    (h1 : st.read = st.invalid + st.enqueued)
    (h2 : st.enqueued = st.recs.length) :
    (rowStep jsonValid st fields).read
        = (rowStep jsonValid st fields).invalid + (rowStep jsonValid st fields).enqueued
    ∧ (rowStep jsonValid st fields).enqueued = (rowStep jsonValid st fields).recs.length := by
  unfold rowStep
  rcases hv : validateRow jsonValid fields with rej | r
  · rcases rej with size | v | _ <;> simp [hv] <;> omega
  · simp [hv]
    omega

/-- The producer loop preserves the two counter invariants from any state. -/
theorem producerGo_inv (sig : Nat → Bool) (jsonValid : String → Bool) :
    ∀ (xs : List ReadResult) (k : Nat) (st : PState),
      st.read = st.invalid + st.enqueued →
      st.enqueued = st.recs.length →
      ((producerGo sig jsonValid k st xs).read
          = (producerGo sig jsonValid k st xs).invalid
              + (producerGo sig jsonValid k st xs).enqueued)
      ∧ (producerGo sig jsonValid k st xs).enqueued
          = (producerGo sig jsonValid k st xs).recs.length := by
  intro xs
  induction xs with
  | nil =>
      intro k st h1 h2
      by_cases hs : sig k <;> simp [producerGo, hs, h1, h2]
  | cons x xs ih =>
      intro k st h1 h2
      by_cases hs : sig k
      · simp [producerGo, hs, h1, h2]
      · cases x with
        | err e =>
            simpa [producerGo, hs] using ih (k + 1) _ (by simpa using h1) (by simpa using h2)
        | row fields =>
            have hr := rowStep_inv jsonValid { st with rowNum := st.rowNum + 1 } fields
              (by simpa using h1) (by simpa using h2)
            simpa [producerGo, hs] using ih (k + 1) _ hr.1 hr.2

/-- The producer's enqueued counter equals the number of records it sent. -/
theorem producerRun_enqueued_eq_recs (sig : Nat → Bool) (jsonValid : String → Bool)
    (inputs : List ReadResult) :
    (producerRun sig jsonValid inputs).enqueued
      = (producerRun sig jsonValid inputs).recs.length :=
  (producerGo_inv sig jsonValid inputs 0 PState.init rfl rfl).2

/-! ## Worker counter accounting -/

/-- Each record handed to a worker increments exactly one of the four outcome
counters, whatever the store returns, and is recorded as one store call. -/
theorem processRecord_stats (store : record → UpsertResult × Option String)
    (st : WState) (r : record) :
    ((processRecord store st r).inserted + (processRecord store st r).updated
        + (processRecord store st r).noop + (processRecord store st r).failed
      = st.inserted + st.updated + st.noop + st.failed + 1)
    ∧ (processRecord store st r).calls = st.calls ++ [r] := by
  unfold processRecord
  rcases h : store r with ⟨res, err⟩
  rcases err with _ | e
  · rcases res <;> simp [h] <;> omega
  · simp [h]
    omega

/-- A fold of processRecord adds the list length to the outcome counters and
appends the list to the calls. -/
theorem foldl_process_stats (store : record → UpsertResult × Option String) :
    ∀ (l : List record) (st : WState),
      ((List.foldl (processRecord store) st l).inserted
          + (List.foldl (processRecord store) st l).updated
          + (List.foldl (processRecord store) st l).noop
          + (List.foldl (processRecord store) st l).failed
        = st.inserted + st.updated + st.noop + st.failed + l.length)
      ∧ (List.foldl (processRecord store) st l).calls = st.calls ++ l := by
  intro l
  induction l with
  | nil => intro st; simp
  | cons r rs ih =>
      intro st
      have hp := processRecord_stats store st r
      have hr := ih (processRecord store st r)
      constructor
      · simp only [List.foldl_cons]
        rw [hr.1, hp.1]
        simp [Nat.add_assoc, Nat.add_comm]
        omega
      · simp only [List.foldl_cons]
        rw [hr.2, hp.2]
        simp

/-- An uncancelled worker is the fold of processRecord over its records. -/
theorem workerGo_nocancel (store : record → UpsertResult × Option String)
    (sig : Nat → Bool) (hsig : ∀ n, sig n = false) :
    ∀ (recs : List record) (k : Nat) (st : WState),
      workerGo store sig k st recs = List.foldl (processRecord store) st recs := by
  intro recs
  induction recs with
  | nil => intro k st; simp [workerGo]
  | cons r rs ih => intro k st; simp [workerGo, hsig k, ih]

/-- Outcome-counter sum of the whole pool, all workers uncancelled: the total
number of records the schedule hands out. -/
theorem workerPool_sum (store : record → UpsertResult × Option String)
    (sched : List ((Nat → Bool) × List record))
    (h : ∀ w ∈ sched, ∀ n, w.1 n = false) :
    (workerPool store sched).inserted + (workerPool store sched).updated
        + (workerPool store sched).noop + (workerPool store sched).failed
      = ((sched.map Prod.snd).flatten).length := by
  suffices hgen : ∀ (l : List ((Nat → Bool) × List record)) (acc : WState),
      (∀ w ∈ l, ∀ n, w.1 n = false) →
      ((l.foldl (fun acc w => addW acc (workerRun store w.1 w.2)) acc).inserted
          + (l.foldl (fun acc w => addW acc (workerRun store w.1 w.2)) acc).updated
          + (l.foldl (fun acc w => addW acc (workerRun store w.1 w.2)) acc).noop
          + (l.foldl (fun acc w => addW acc (workerRun store w.1 w.2)) acc).failed
        = acc.inserted + acc.updated + acc.noop + acc.failed
            + ((l.map Prod.snd).flatten).length) by
    simpa [workerPool, WState.init] using hgen sched WState.init h
  intro l
  induction l with
  | nil => intro acc _; simp
  | cons w ws ih =>
      intro acc hl
      have hw : ∀ n, w.1 n = false := hl w (by simp)
      have hws : ∀ v ∈ ws, ∀ n, v.1 n = false := fun v hv => hl v (by simp [hv])
      have hrun : workerRun store w.1 w.2 = List.foldl (processRecord store) WState.init w.2 :=
        workerGo_nocancel store w.1 hw w.2 0 WState.init
      have hfold := foldl_process_stats store w.2 WState.init
      simp only [List.foldl_cons]
      rw [ih (addW acc (workerRun store w.1 w.2)) hws]
      simp [addW, hrun, hfold.1, WState.init] at *
      omega

/-- C1: for every prefix of the input consumed by the producer loop of Run —
under any cancellation signal and any json validity oracle — the counters
satisfy read = invalid + enqueued, each successfully read row adding 1 to
read and 1 to exactly one of invalid or enqueued; the equality therefore also
holds for the counters of the final processor_finished summary. -/
theorem c1_read_eq_invalid_add_enqueued (sig : Nat → Bool) (jsonValid : String → Bool)
    (inputs : List ReadResult) (n : Nat) (inp : RunInput)
    (store : record → UpsertResult × Option String)
    (sched : List ((Nat → Bool) × List record)) :
    ((producerRun sig jsonValid (inputs.take n)).read
        = (producerRun sig jsonValid (inputs.take n)).invalid
            + (producerRun sig jsonValid (inputs.take n)).enqueued)
    ∧ (match Run inp sig jsonValid store sched with
       | .ok s => s.read = s.invalid + s.enqueued
       | .error _ => True) := by
  constructor
  · exact (producerGo_inv sig jsonValid (inputs.take n) 0 PState.init rfl rfl).1
  · unfold Run
    rcases inp.openErr with _ | e
    · rcases hh : headerRead inp.stream with e | rows
      · simp [hh]
      · have := (producerGo_inv sig jsonValid rows 0 PState.init rfl rfl).1
        simpa [hh, producerRun] using this
    · simp

/-- C2: for every run of Run that completes without cancellation being
observed (the producer signal and every worker signal stay unset) and whose
schedule hands every enqueued record to exactly one worker, the summary
satisfies enqueued = inserted + updated + duplicates(noop) + failed: each
consumed record increments exactly one of the four counters. -/
theorem c2_enqueued_eq_outcome_sum
    (inp : RunInput) (sig : Nat → Bool) (jsonValid : String → Bool)
    (store : record → UpsertResult × Option String)
    (sched : List ((Nat → Bool) × List record))
    (hdr : List String) (rows : List ReadResult)
    (hstream : inp.stream = .row hdr :: rows)
    (hopen : inp.openErr = none)
    (hcancel : ∀ w ∈ sched, ∀ n, w.1 n = false)
    (hperm : ((sched.map Prod.snd).flatten).Perm (producerRun sig jsonValid rows).recs)
    (s : Summary) (hrun : Run inp sig jsonValid store sched = .ok s) :
    s.enqueued = s.inserted + s.updated + s.duplicates + s.failed := by
  unfold Run at hrun
  rw [hopen, hstream] at hrun
  simp only [headerRead] at hrun
  have hs : s = { read := (producerRun sig jsonValid rows).read,
                  enqueued := (producerRun sig jsonValid rows).enqueued,
                  inserted := (workerPool store sched).inserted,
                  updated := (workerPool store sched).updated,
                  duplicates := (workerPool store sched).noop,
                  failed := (workerPool store sched).failed,
                  invalid := (producerRun sig jsonValid rows).invalid } := by
    cases hrun
    rfl
  subst hs
  have h1 := producerRun_enqueued_eq_recs sig jsonValid rows
  have h2 := workerPool_sum store sched hcancel
  have h3 := hperm.length_eq
  simp only [h1, h2, h3]

/-- Concrete record for the witnesses. -/
def recW : record :=
  { userID := 1, segType := "a", name := "b", data := "1" }

/-- Concrete Run environment for the witnesses: a header row then one valid
data row. -/
def inpW : RunInput :=
  { openErr := none, stream := [.row ["h"], .row ["1", "a", "b", "1"]] }

/-- Concrete store for the witnesses: every call inserts. -/
def storeW : record → UpsertResult × Option String :=
  fun _ => (.UpsertInserted, none)

/-- Concrete one-worker schedule for the witnesses. -/
def schedW : List ((Nat → Bool) × List record) :=
  [(fun _ => false, [recW])]

/-- Concrete summary of the witness run. -/
def summW : Summary :=
  { read := 1, enqueued := 1, inserted := 1, updated := 0, duplicates := 0,
    failed := 0, invalid := 0 }

/-- C2 witness: the one-row, one-worker, no-cancellation run balances its
counters. -/
theorem c2_witness :
    summW.enqueued = summW.inserted + summW.updated + summW.duplicates + summW.failed :=
  c2_enqueued_eq_outcome_sum inpW (fun _ => false) (fun _ => true) storeW schedW
    ["h"] [.row ["1", "a", "b", "1"]] rfl rfl
    (by
      intro w hw n
      simp only [schedW, List.mem_singleton] at hw
      subst hw
      rfl)
    (by decide)
    summW rfl

/-- C3: validation applies its rules in order, first match wins — fewer than
4 fields is a wrong-arity rejection; a trimmed field 0 that does not parse as
an unsigned 64-bit integer is a bad-subject-id rejection; a trimmed field 3
the json oracle refuses is a bad-payload rejection; otherwise the record is
built from the subject id and the trimmed fields 1, 2 and 3. Every rejection
increments invalid (the failed counter lives in the worker and is untouched),
enqueues nothing (so the store is never called for the row), and the loop
continues with the remaining input. -/
theorem c3_validation_rules (jsonValid : String → Bool) (fields : List String)
    (st : PState) (sig : Nat → Bool) (k : Nat) (xs : List ReadResult) :
    (fields.length < 4 →
      validateRow jsonValid fields = .error (.wrongArity fields.length))
    ∧ (4 ≤ fields.length → parseUint64 (trimSpace (fields.getD 0 "")) = none →
      validateRow jsonValid fields = .error (.badSubjectId (fields.getD 0 "")))
    ∧ (∀ uid, 4 ≤ fields.length →
      parseUint64 (trimSpace (fields.getD 0 "")) = some uid →
      jsonValid (trimSpace (fields.getD 3 "")) = false →
      validateRow jsonValid fields = .error .badPayload)
    ∧ (∀ uid, 4 ≤ fields.length →
      parseUint64 (trimSpace (fields.getD 0 "")) = some uid →
      jsonValid (trimSpace (fields.getD 3 "")) = true →
      validateRow jsonValid fields
        = .ok { userID := uid, segType := trimSpace (fields.getD 1 ""),
                name := trimSpace (fields.getD 2 ""),
                data := trimSpace (fields.getD 3 "") })
    ∧ (∀ rej, validateRow jsonValid fields = .error rej →
      (rowStep jsonValid st fields).invalid = st.invalid + 1
      ∧ (rowStep jsonValid st fields).enqueued = st.enqueued
      ∧ (rowStep jsonValid st fields).recs = st.recs
      ∧ (rowStep jsonValid st fields).read = st.read + 1)
    ∧ (sig k = false →
      producerGo sig jsonValid k st (.row fields :: xs)
        = producerGo sig jsonValid (k + 1)
            (rowStep jsonValid { st with rowNum := st.rowNum + 1 } fields) xs) := by
  refine ⟨?_, ?_, ?_, ?_, ?_, ?_⟩
  · intro h
    simp [validateRow, h]
  · intro h hp
    have h4 : ¬ fields.length < 4 := by omega
    simp only [List.getD, List.get?_eq_getElem?] at hp
    simp [validateRow, h4, hp]
  · intro uid h hp hj
    have h4 : ¬ fields.length < 4 := by omega
    simp only [List.getD, List.get?_eq_getElem?] at hp hj
    simp [validateRow, h4, hp, hj]
  · intro uid h hp hj
    have h4 : ¬ fields.length < 4 := by omega
    simp only [List.getD, List.get?_eq_getElem?] at hp hj
    simp [validateRow, h4, hp, hj, List.getD]
  · intro rej hrej
    unfold rowStep
    rw [hrej]
    rcases rej with size | v | _ <;> simp
  · intro hk
    simp [producerGo, hk]

/-- C3 witness: a 1-field row is rejected for arity; a valid 4-field row with
subject id 7 and trimmed fields builds exactly the expected record; the
rejection increments invalid and enqueues nothing. -/
theorem c3_witness :
    validateRow (fun _ => true) ["a"] = .error (.wrongArity 1)
    ∧ validateRow (fun _ => true) [" 7 ", " drug ", " Aspirin ", " 1 "]
        = .ok { userID := 7, segType := "drug", name := "Aspirin", data := "1" }
    ∧ (rowStep (fun _ => true) PState.init ["a"]).invalid = PState.init.invalid + 1
    ∧ (rowStep (fun _ => true) PState.init ["a"]).recs = PState.init.recs := by
  refine ⟨?_, ?_, ?_, ?_⟩
  · exact (c3_validation_rules (fun _ => true) ["a"] PState.init (fun _ => false) 0 []).1
      (by decide)
  · exact (c3_validation_rules (fun _ => true) [" 7 ", " drug ", " Aspirin ", " 1 "]
      PState.init (fun _ => false) 0 []).2.2.2.1 7 (by decide) (by decide) rfl
  · exact ((c3_validation_rules (fun _ => true) ["a"] PState.init (fun _ => false) 0
      []).2.2.2.2.1 (.wrongArity 1) rfl).1
  · exact ((c3_validation_rules (fun _ => true) ["a"] PState.init (fun _ => false) 0
      []).2.2.2.2.1 (.wrongArity 1) rfl).2.2.1

/-- C4: Run returns an error exactly when setup fails — the file cannot be
opened, or the header read fails (an error, or end of file before any row);
whatever the cancellation signal, the row stream, the store and the schedule
do afterwards, Run produces the processor_finished summary and returns nil. -/
theorem c4_error_iff_setup_failure (inp : RunInput) (sig : Nat → Bool)
    (jsonValid : String → Bool) (store : record → UpsertResult × Option String)
    (sched : List ((Nat → Bool) × List record)) :
    ((∃ e, Run inp sig jsonValid store sched = .error e)
      ↔ (inp.openErr ≠ none ∨ ∃ e, headerRead inp.stream = .error e))
    ∧ (inp.openErr = none → ∀ rows, headerRead inp.stream = .ok rows →
        ∃ s, Run inp sig jsonValid store sched = .ok s) := by
  constructor
  · unfold Run
    rcases ho : inp.openErr with _ | e
    · rcases hh : headerRead inp.stream with e | rows <;> simp [hh]
    · simp
  · intro ho rows hh
    unfold Run
    rw [ho, hh]
    exact ⟨_, rfl⟩

/-- C4 witness: a run whose file opens and whose header reads returns a
summary, not an error. -/
theorem c4_witness :
    ∃ s, Run inpW (fun _ => false) (fun _ => true) storeW schedW = .ok s :=
  (c4_error_iff_setup_failure inpW (fun _ => false) (fun _ => true) storeW schedW).2
    rfl [.row ["1", "a", "b", "1"]] rfl

/-! ## Upsert key semantics -/

/-- Two segmentation values carrying the same uniqueness triple. -/
def sameTriple (a b : Segmentation) : Prop :=
  b.UserID = a.UserID ∧ b.SegmentationType = a.SegmentationType
    ∧ b.SegmentationName = a.SegmentationName

/-- Rows match the existence query of one triple-equal record exactly when
they match the other's. -/
theorem sameKey_congr (s s2 r : Segmentation) (h : sameTriple s s2) :
    sameKey s2 r = sameKey s r := by
  obtain ⟨h1, h2, h3⟩ := h
  simp [sameKey, h1, h2, h3]

/-- C5: Upsert is keyed on (UserID, SegmentationType, SegmentationName): an
absent triple inserts and returns UpsertInserted with a nil error; a present
triple returns UpsertUpdated with a nil error; hence two successive upserts
of the same triple (any payloads) return UpsertInserted then UpsertUpdated —
never UpsertInserted twice — and a failure of whichever gorm call runs
returns that error non-nil. -/
theorem c5_upsert_triple_semantics (now now2 : Int) (db : Db) (s s2 : Segmentation) :
    ((findFirst db s = none →
      (Upsert noFaults now db s).1 = .UpsertInserted
        ∧ (Upsert noFaults now db s).2.1 = none)
    ∧ (∀ ex, findFirst db s = some ex →
      (Upsert noFaults now db s).1 = .UpsertUpdated
        ∧ (Upsert noFaults now db s).2.1 = none))
    ∧ (findFirst db s = none → sameTriple s s2 →
      (Upsert noFaults now db s).1 = .UpsertInserted
        ∧ (Upsert noFaults now2 (Upsert noFaults now db s).2.2.1 s2).1 = .UpsertUpdated
        ∧ (Upsert noFaults now2 (Upsert noFaults now db s).2.2.1 s2).1 ≠ .UpsertInserted)
    ∧ (∀ (f : DbFaults) (e : String),
      (f.findErr = some e → (Upsert f now db s).2.1 = some e)
      ∧ (f.findErr = none → findFirst db s = none → f.createErr = some e →
          (Upsert f now db s).2.1 = some e)
      ∧ (∀ ex, f.findErr = none → findFirst db s = some ex → f.updateErr = some e →
          (Upsert f now db s).2.1 = some e)) := by
  refine ⟨⟨?_, ?_⟩, ?_, ?_⟩
  · intro h
    simp [Upsert, noFaults, h]
  · intro ex h
    simp [Upsert, noFaults, h]
  · intro h ht
    have hupd : ∀ (n : Int) (d : Db) (t ex : Segmentation), findFirst d t = some ex →
        (Upsert noFaults n d t).1 = .UpsertUpdated := by
      intro n d t ex hex
      simp [Upsert, noFaults, hex]
    have h2 : findFirst (Upsert noFaults now db s).2.2.1 s2
        = some { s with ID := db.nextId, CreatedAt := now, UpdatedAt := now } := by
      simp only [Upsert, noFaults, h]
      simp only [findFirst, List.find?_append]
      have hl : db.rows.find? (sameKey s2) = none := by
        rw [show sameKey s2 = sameKey s from funext fun r => sameKey_congr s s2 r ht]
        exact h
      rw [hl]
      simp [List.find?_cons, sameKey, ht.1, ht.2.1, ht.2.2]
    refine ⟨by simp [Upsert, noFaults, h], hupd _ _ _ _ h2, ?_⟩
    rw [hupd _ _ _ _ h2]
    simp
  · intro f e
    refine ⟨?_, ?_, ?_⟩
    · intro hf
      simp [Upsert, hf]
    · intro hf hnone hc
      simp [Upsert, hf, hnone, hc]
    · intro ex hf hsome hu
      simp [Upsert, hf, hsome, hu]

/-- Concrete segmentation value for the store witnesses. -/
def segW : Segmentation :=
  { ID := 0, UserID := 7, SegmentationType := "drug", SegmentationName := "Aspirin",
    Data := "1", CreatedAt := 0, UpdatedAt := 0 }

/-- C5 witness: against the empty table, upserting segW and then a
triple-equal record with another payload yields UpsertInserted then
UpsertUpdated, and an injected existence-query failure surfaces its error. -/
theorem c5_witness :
    (Upsert noFaults 10 { rows := [], nextId := 1 } segW).1 = .UpsertInserted
    ∧ (Upsert noFaults 20 (Upsert noFaults 10 { rows := [], nextId := 1 } segW).2.2.1
        { segW with Data := "2" }).1 = .UpsertUpdated
    ∧ (Upsert { noFaults with findErr := some "down" } 10
        { rows := [], nextId := 1 } segW).2.1 = some "down" := by
  have h := c5_upsert_triple_semantics 10 20 { rows := [], nextId := 1 } segW
    { segW with Data := "2" }
  have h2 := h.2.1 rfl ⟨rfl, rfl, rfl⟩
  exact ⟨h2.1, h2.2.1,
    (h.2.2 { noFaults with findErr := some "down" } "down").1 rfl⟩

/-- A list is pointwise related to its own map when the relation holds of
every element and its image. -/
theorem forall2_map_self {α : Type} (f : α → α) (P : α → α → Prop)
    (l : List α) (h : ∀ a ∈ l, P a (f a)) : List.Forall₂ P l (l.map f) := by
  induction l with
  | nil => simp
  | cons a l ih =>
      simp only [List.map_cons]
      exact .cons (h a (by simp)) (ih fun b hb => h b (by simp [hb]))

/-- C9: on the Updated path of Upsert (the keyed row exists) only the data
and updated_at columns of rows change, and only on the row whose ID is the
existing row's: every other row is kept verbatim, the hit row keeps its
user_id, segmentation_type, segmentation_name, created_at and ID, and the
incoming record comes back with its ID overwritten by the existing row's ID;
the auto-increment counter does not move. -/
theorem c9_update_frame (now : Int) (db : Db) (s ex : Segmentation)
    (hfind : findFirst db s = some ex) :
    (Upsert noFaults now db s).1 = .UpsertUpdated
    ∧ (Upsert noFaults now db s).2.2.2.ID = ex.ID
    ∧ List.Forall₂ (fun r r' =>
        (r.ID ≠ ex.ID → r' = r)
        ∧ (r.ID = ex.ID →
            r'.UserID = r.UserID ∧ r'.SegmentationType = r.SegmentationType
            ∧ r'.SegmentationName = r.SegmentationName ∧ r'.CreatedAt = r.CreatedAt
            ∧ r'.ID = r.ID ∧ r'.Data = s.Data ∧ r'.UpdatedAt = now))
        db.rows (Upsert noFaults now db s).2.2.1.rows
    ∧ (Upsert noFaults now db s).2.2.1.nextId = db.nextId := by
  refine ⟨by simp [Upsert, noFaults, hfind], by simp [Upsert, noFaults, hfind], ?_,
    by simp [Upsert, noFaults, hfind]⟩
  have hrows : (Upsert noFaults now db s).2.2.1.rows
      = db.rows.map (fun r =>
          if r.ID = ex.ID then { r with Data := s.Data, UpdatedAt := now } else r) := by
    simp [Upsert, noFaults, hfind]
  rw [hrows]
  refine forall2_map_self _ _ _ ?_
  intro r _
  by_cases hid : r.ID = ex.ID
  · simp [hid]
  · simp [hid]

/-- C9 witness: updating a one-row table holding segW's triple keeps the
row's identity columns and moves only data and updated_at. -/
theorem c9_witness :
    (Upsert noFaults 20
      { rows := [{ segW with ID := 5 }], nextId := 6 } { segW with Data := "2" }).1
        = .UpsertUpdated
    ∧ (Upsert noFaults 20
      { rows := [{ segW with ID := 5 }], nextId := 6 } { segW with Data := "2" }).2.2.2.ID
        = 5 := by
  have h := c9_update_frame 20 { rows := [{ segW with ID := 5 }], nextId := 6 }
    { segW with Data := "2" } { segW with ID := 5 } rfl
  exact ⟨h.1, h.2.1⟩

/-! ## Read errors do not touch the counters -/

/-- The (read, invalid, enqueued, sent-records) projection of the producer
state: exactly what the counter claims are about, log and rowNum excluded. -/
def PCounters (st : PState) : Nat × Nat × Nat × List record :=
  (st.read, st.invalid, st.enqueued, st.recs)

/-- rowStep's effect on the counters depends only on the counters. -/
theorem rowStep_congr (jsonValid : String → Bool) (a b : PState)
    (fields : List String) (h : PCounters a = PCounters b) :
    PCounters (rowStep jsonValid a fields) = PCounters (rowStep jsonValid b fields) := by
  simp only [PCounters, Prod.mk.injEq] at h
  obtain ⟨h1, h2, h3, h4⟩ := h
  unfold rowStep
  rcases hv : validateRow jsonValid fields with rej | r
  · rcases rej with size | v | _ <;> simp [hv, PCounters, h1, h2, h3, h4]
  · simp [hv, PCounters, h1, h2, h3, h4]

/-- With the signal never set, the producer's counters depend only on the
incoming counters and the inputs — not on rowNum, the log, or the iteration
index. -/
theorem producerGo_congr (sig : Nat → Bool) (jsonValid : String → Bool)
    (hsig : ∀ n, sig n = false) :
    ∀ (xs : List ReadResult) (k k' : Nat) (a b : PState),
      PCounters a = PCounters b →
      PCounters (producerGo sig jsonValid k a xs)
        = PCounters (producerGo sig jsonValid k' b xs) := by
  intro xs
  induction xs with
  | nil =>
      intro k k' a b h
      simpa [producerGo, hsig k, hsig k'] using h
  | cons x xs ih =>
      intro k k' a b h
      cases x with
      | err e =>
          simp only [producerGo, hsig k, hsig k', Bool.false_eq_true, if_false]
          exact ih (k + 1) (k' + 1) _ _ h
      | row fields =>
          simp only [producerGo, hsig k, hsig k', Bool.false_eq_true, if_false]
          exact ih (k + 1) (k' + 1) _ _ (rowStep_congr jsonValid _ _ fields h)

/-- Inserting a read error anywhere in the input stream leaves the producer's
counters and sent records untouched. -/
theorem producerGo_skip_err (sig : Nat → Bool) (jsonValid : String → Bool)
    (hsig : ∀ n, sig n = false) :
    ∀ (xs ys : List ReadResult) (e : String) (k : Nat) (st : PState),
      PCounters (producerGo sig jsonValid k st (xs ++ .err e :: ys))
        = PCounters (producerGo sig jsonValid k st (xs ++ ys)) := by
  intro xs
  induction xs with
  | nil =>
      intro ys e k st
      simp only [List.nil_append]
      rw [show producerGo sig jsonValid k st (.err e :: ys)
            = producerGo sig jsonValid (k + 1)
                { st with rowNum := st.rowNum + 1
                          logs := st.logs ++ [.csvReadError (st.rowNum + 1) e] } ys from by
        simp [producerGo, hsig k]]
      exact producerGo_congr sig jsonValid hsig ys (k + 1) k _ st rfl
  | cons x xs ih =>
      intro ys e k st
      cases x with
      | err e2 =>
          simp only [List.cons_append, producerGo, hsig k, Bool.false_eq_true, if_false]
          exact ih ys e (k + 1) _
      | row fields =>
          simp only [List.cons_append, producerGo, hsig k, Bool.false_eq_true, if_false]
          exact ih ys e (k + 1) _

/-- C7: a row-level read failure other than end-of-stream leaves read and
every other counter and the sent records untouched, is logged as
csv_read_error with its row number, and the loop goes on with the remaining
input; end of stream leaves the state as it is — no log line, no error. -/
theorem c7_read_error_skipped (sig : Nat → Bool) (jsonValid : String → Bool)
    (hsig : ∀ n, sig n = false) (xs ys : List ReadResult) (e : String)
    (k : Nat) (st : PState) :
    PCounters (producerRun sig jsonValid (xs ++ .err e :: ys))
      = PCounters (producerRun sig jsonValid (xs ++ ys))
    ∧ producerGo sig jsonValid k st (.err e :: ys)
        = producerGo sig jsonValid (k + 1)
            { st with rowNum := st.rowNum + 1
                      logs := st.logs ++ [.csvReadError (st.rowNum + 1) e] } ys
    ∧ producerGo sig jsonValid k st [] = st := by
  refine ⟨producerGo_skip_err sig jsonValid hsig xs ys e 0 PState.init, ?_, ?_⟩
  · simp [producerGo, hsig k]
  · simp [producerGo, hsig k]

/-- C7 witness: a read error after one valid row changes none of the
counters, and the empty remainder ends the loop with the state unchanged. -/
theorem c7_witness :
    PCounters (producerRun (fun _ => false) (fun _ => true)
        ([.row ["1", "a", "b", "1"]] ++ .err "bad" :: []))
      = PCounters (producerRun (fun _ => false) (fun _ => true)
        ([.row ["1", "a", "b", "1"]] ++ []))
    ∧ producerGo (fun _ => false) (fun _ => true) 0 PState.init [] = PState.init := by
  have h := c7_read_error_skipped (fun _ => false) (fun _ => true) (fun _ => rfl)
    [.row ["1", "a", "b", "1"]] [] "bad" 0 PState.init
  exact ⟨h.1, h.2.2⟩

/-! ## Shapes of the event traces -/

/-- Well-formed producer traces: every iteration is exactly one observation
of the signal; only an uncancelled observation is followed by the csv read,
and a sent row adds the send under that same single observation; a cancelled
observation ends the trace at once. -/
inductive PShape : List PEvt → Prop where
  | cancelled : PShape [.observe true]
  | eof : PShape [.observe false, .readSrc]
  | skip (t : List PEvt) : PShape t → PShape (.observe false :: .readSrc :: t)
  | sent (t : List PEvt) : PShape t → PShape (.observe false :: .readSrc :: .send :: t)

/-- Well-formed worker traces: a pull is followed by exactly one observation;
an uncancelled observation is followed by the store call and the next pull; a
cancelled observation ends the trace at once. -/
inductive WShape : List WEvt → Prop where
  | empty : WShape []
  | cancelled : WShape [.pull, .observe true]
  | step (t : List WEvt) : WShape t → WShape (.pull :: .observe false :: .process :: t)

/-- The producer's trace is well-formed for every signal and input stream. -/
theorem pTrace_shape (sig : Nat → Bool) (jsonValid : String → Bool) :
    ∀ (inputs : List ReadResult) (k : Nat), PShape (pTrace sig jsonValid k inputs) := by
  intro inputs
  induction inputs with
  | nil =>
      intro k
      by_cases h : sig k
      · simp only [pTrace, h, if_true]
        exact .cancelled
      · simp only [pTrace, h, Bool.false_eq_true, if_false]
        exact .eof
  | cons x xs ih =>
      intro k
      by_cases h : sig k
      · simp only [pTrace, h, if_true]
        exact .cancelled
      · cases x with
        | err e =>
            simp only [pTrace, h, Bool.false_eq_true, if_false]
            exact .skip _ (ih (k + 1))
        | row fields =>
            rcases hv : validateRow jsonValid fields with rej | r
            · simp only [pTrace, h, Bool.false_eq_true, if_false, hv]
              exact .skip _ (ih (k + 1))
            · simp only [pTrace, h, Bool.false_eq_true, if_false, hv]
              exact .sent _ (ih (k + 1))

/-- Every worker's trace is well-formed for every signal and record list. -/
theorem wTrace_shape (sig : Nat → Bool) :
    ∀ (recs : List record) (k : Nat), WShape (wTrace sig k recs) := by
  intro recs
  induction recs with
  | nil => intro k; exact .empty
  | cons r rs ih =>
      intro k
      by_cases h : sig k
      · simp only [wTrace, h, if_true]
        exact .cancelled
      · simp only [wTrace, h, Bool.false_eq_true, if_false]
        exact .step _ (ih (k + 1))

/-- In a well-formed producer trace, a cancelled observation is the last
event: nothing — no read, no send — happens after it. -/
theorem pshape_cancel_ends (t : List PEvt) (hp : PShape t) :
    ∀ i, t[i]? = some (.observe true) → t.length = i + 1 := by
  induction hp with
  | cancelled =>
      intro i h
      rcases i with _ | i
      · rfl
      · simp at h
  | eof =>
      intro i h
      rcases i with _ | _ | i <;> simp_all
  | skip t ht ih =>
      intro i h
      rcases i with _ | _ | i
      · simp at h
      · simp at h
      · have := ih i (by simpa using h)
        simp only [List.length_cons]
        omega
  | sent t ht ih =>
      intro i h
      rcases i with _ | _ | _ | i
      · simp at h
      · simp at h
      · simp at h
      · have := ih i (by simpa using h)
        simp only [List.length_cons]
        omega

/-- In a well-formed worker trace, a cancelled observation is the last event:
the worker pulls no further record and calls the store no further time. -/
theorem wshape_cancel_ends (t : List WEvt) (hw : WShape t) :
    ∀ i, t[i]? = some (.observe true) → t.length = i + 1 := by
  induction hw with
  | empty => intro i h; simp at h
  | cancelled =>
      intro i h
      rcases i with _ | _ | i <;> simp_all
  | step t ht ih =>
      intro i h
      rcases i with _ | _ | _ | i
      · simp at h
      · simp at h
      · simp at h
      · have := ih i (by simpa using h)
        simp only [List.length_cons]
        omega

/-- C6: the cancellation observation points. The producer's trace consists of
one observation per iteration placed before that iteration's blocking read
and before its blocking send (PShape), and a cancelled observation ends the
trace — an observed-cancelled producer never reaches another read or send.
Each worker's trace pulls, then makes its single observation before any
further pull (WShape), and a cancelled observation ends the trace — an
observed-cancelled worker takes nothing more off the queue. -/
theorem c6_cancellation_observation_points (sig sigw : Nat → Bool)
    (jsonValid : String → Bool) (k kw : Nat) (inputs : List ReadResult)
    (recs : List record) :
    PShape (pTrace sig jsonValid k inputs)
    ∧ (∀ i, (pTrace sig jsonValid k inputs)[i]? = some (.observe true) →
        (pTrace sig jsonValid k inputs).length = i + 1)
    ∧ WShape (wTrace sigw kw recs)
    ∧ (∀ i, (wTrace sigw kw recs)[i]? = some (.observe true) →
        (wTrace sigw kw recs).length = i + 1) :=
  ⟨pTrace_shape sig jsonValid inputs k,
   pshape_cancel_ends _ (pTrace_shape sig jsonValid inputs k),
   wTrace_shape sigw recs kw,
   wshape_cancel_ends _ (wTrace_shape sigw recs kw)⟩

/-- C6 witness: a producer whose very first observation sees the signal stops
with a one-event trace; a worker that pulls one record and then sees the
signal stops with a two-event trace. -/
theorem c6_witness :
    (pTrace (fun _ => true) (fun _ => true) 0 ([] : List ReadResult)).length = 0 + 1
    ∧ (wTrace (fun _ => true) 0 [recW]).length = 1 + 1 := by
  have h := c6_cancellation_observation_points (fun _ => true) (fun _ => true)
    (fun _ => true) 0 0 [] [recW]
  exact ⟨h.2.1 0 rfl, h.2.2.2 1 rfl⟩

/-- C8 counterexample: the spec's overridable worker count and the code's
worker count disagree at four CPUs with a requested override of two — the
code takes runtime.NumCPU() unconditionally and exposes no override. -/
theorem c8_counterexample : specWorkersUsed 4 (some 2) ≠ workersUsed 4 := by
  decide

/-- C8 amended: the worker count is always the host's available parallelism
(runtime.NumCPU(), not overridable by the caller), and the dispatch channel
is bounded at 4 times the worker count. -/
theorem c8_workers_and_capacity (numCPU : Nat) :
    workersUsed numCPU = numCPU ∧ chanCapacity numCPU = 4 * workersUsed numCPU :=
  ⟨rfl, Nat.mul_comm _ 4⟩

/-! ## Cancelled worker drops the pulled record -/

/-- A worker whose signal sets after c observations is the fold of
processRecord over the first c - k records it receives. -/
theorem workerGo_cancelSig (store : record → UpsertResult × Option String) (c : Nat) :
    ∀ (recs : List record) (k : Nat) (st : WState),
      workerGo store (cancelSig c) k st recs
        = List.foldl (processRecord store) st (recs.take (c - k)) := by
  intro recs
  induction recs with
  | nil =>
      intro k st
      simp [workerGo]
  | cons r rs ih =>
      intro k st
      by_cases h : c ≤ k
      · have h0 : c - k = 0 := Nat.sub_eq_zero_of_le h
        simp [workerGo, cancelSig, h, h0]
      · have h1 : c - k = (c - (k + 1)) + 1 := by omega
        simp only [workerGo, cancelSig]
        rw [if_neg (by simpa using h), h1, List.take_succ_cons, List.foldl_cons]
        exact ih (k + 1) (processRecord store st r)

/-- C10: a worker that observes cancellation right after pulling a record
returns at once: the pulled record never reaches the store (the calls are
exactly the records before it), no counter moves for it, nothing re-queues
it, and the four outcome counters stay strictly below the number of records
handed to the worker. -/
theorem c10_cancelled_worker_discards (store : record → UpsertResult × Option String)
    (recs : List record) (c : Nat) (hc : c < recs.length) :
    (workerRun store (cancelSig c) recs).calls = recs.take c
    ∧ (workerRun store (cancelSig c) recs).inserted
        + (workerRun store (cancelSig c) recs).updated
        + (workerRun store (cancelSig c) recs).noop
        + (workerRun store (cancelSig c) recs).failed = c
    ∧ (workerRun store (cancelSig c) recs).inserted
        + (workerRun store (cancelSig c) recs).updated
        + (workerRun store (cancelSig c) recs).noop
        + (workerRun store (cancelSig c) recs).failed < recs.length := by
  have hgo := workerGo_cancelSig store c recs 0 WState.init
  rw [Nat.sub_zero] at hgo
  have hst := foldl_process_stats store (recs.take c) WState.init
  have hlen : (recs.take c).length = c := by
    rw [List.length_take]
    omega
  unfold workerRun
  rw [hgo]
  refine ⟨by simpa [WState.init] using hst.2, ?_, ?_⟩
  · have := hst.1
    simp only [WState.init, hlen] at this ⊢
    omega
  · have := hst.1
    simp only [WState.init, hlen] at this ⊢
    omega

/-- C10 witness: a worker cancelled at its very first observation discards
the one record it pulled — no store call, no counter. -/
theorem c10_witness :
    (workerRun storeW (cancelSig 0) [recW]).calls = ([recW] : List record).take 0
    ∧ (workerRun storeW (cancelSig 0) [recW]).inserted
        + (workerRun storeW (cancelSig 0) [recW]).updated
        + (workerRun storeW (cancelSig 0) [recW]).noop
        + (workerRun storeW (cancelSig 0) [recW]).failed = 0 := by
  have h := c10_cancelled_worker_discards storeW [recW] 0 (by decide)
  exact ⟨h.1, h.2.1⟩

end Seg
